import Mathlib

/-!
Verification of the POSIX process-execution core of leatherman
(`src/execution/src/posix/execution.cc`) against its natural-language
specification.

Modelling conventions:
* C++ byte strings (`std::string`, `char*` environment entries) are `List Char`.
* Raw byte chunks moved through pipes are `List Nat`.
* The multiplexing loop `rw_from_child` is a step function over its loop state,
  driven by a trace of per-iteration OS responses (`select`/`read`/`write`
  results and the value of the `command_timedout` flag at the loop head).
* `static_cast<char>` narrowing is two's-complement signed 8-bit narrowing
  (`char` is signed on the reference x86 platforms).
-/

namespace Leatherman

/-- C++ byte strings (`std::string`) modelled as lists of characters. -/
abbrev Str := List Char

/-- The `key=value` entry pushed by `create_environment` for a map entry:
`(boost::format("%1%=%2%") % kvp.first % kvp.second).str()`. -/
def render (kv : Str × Str) : Str := kv.1 ++ '=' :: kv.2

/-- `boost::starts_with(v, p)`. -/
def startsWith (v p : Str) : Bool := p.isPrefixOf v

/-- `environment->count(k) != 0` for the caller's `std::map` (unique keys),
modelled as an association list. -/
def hasKey (env : List (Str × Str)) (k : Str) : Bool := env.any (fun kv => kv.1 == k)

/-- The merge phase of `create_environment` (lines 356-364): copy the parent
environment, dropping entries that start with `LC_ALL=` or `LANG=`. -/
def merged_environment (merge : Bool) (environ : List Str) : List Str :=
  if merge then
    environ.filter (fun v => !(startsWith v "LC_ALL=".toList) && !(startsWith v "LANG=".toList))
  else []

/-- The caller phase of `create_environment` (lines 366-371): every entry of the
caller's map, rendered as `key=value`, in map order. -/
def given_environment : Option (List (Str × Str)) → List Str
  | some env => env.map render
  | none => []

/-- The `LC_ALL` default of `create_environment` (lines 374-376): `LC_ALL=C` is
appended when no caller map was given or it has no `LC_ALL` key. -/
def lc_default : Option (List (Str × Str)) → List Str
  | none => ["LC_ALL=C".toList]
  | some env => if hasKey env "LC_ALL".toList then [] else ["LC_ALL=C".toList]

/-- The `LANG` default of `create_environment` (lines 377-379). -/
def lang_default : Option (List (Str × Str)) → List Str
  | none => ["LANG=C".toList]
  | some env => if hasKey env "LANG".toList then [] else ["LANG=C".toList]

/-- `create_environment` (`execution.cc` lines 351-381): when `merge` is set copy
the parent environment dropping entries that start with `LC_ALL=` or `LANG=`,
then append the caller's entries in map order, then append `LC_ALL=C`
(respectively `LANG=C`) when the caller's map is absent or lacks that key. -/
def create_environment (environment : Option (List (Str × Str))) (merge : Bool)
    (environ : List Str) : List Str :=
  merged_environment merge environ ++ given_environment environment
    ++ lc_default environment ++ lang_default environment

/-- Modelled from the spec: the child runtime's environment lookup, which is not
part of this repository.  POSIX `getenv` scans the environment array from the
front and returns the value of the first entry whose name matches (duplicate
names are permitted and the first match wins). -/
def getenv_first (envp : List Str) (name : Str) : Option Str :=
  (envp.find? (fun v => startsWith v (name ++ ['=']))).map (fun v => v.drop (name.length + 1))

/-- Last-match environment lookup: the value of the last matching entry of the
environment array (the convention under which later entries override earlier
ones). -/
def getenv_last (envp : List Str) (name : Str) : Option Str :=
  getenv_first envp.reverse name

/-! ## The multiplexing loop `rw_from_child` (`execution.cc` lines 172-277) -/

/-- Raw bytes moved through a pipe. -/
abbrev Chunk := List Nat

/-- `errno` value for an interrupted system call. -/
def EINTR : Nat := 4

/-- The buffer size `pipe.buffer.resize(4096)` used for every read. -/
def bufsize : Nat := 4096

/-- Result of one `read` call: a negative return with an `errno`, or a
non-negative count together with the bytes placed in the buffer (the empty
list is a zero count, i.e. end of stream).  A real `read` can fill at most the
supplied buffer, so the step function clamps the bytes to `bufsize`. -/
inductive ReadResult where
  | err (errno : Nat)
  | ret (bytes : Chunk)
  deriving DecidableEq, Repr

/-- Result of one `write` call: a negative return with an `errno`, or the
number of bytes accepted (clamped by the step function to the number offered,
as a real `write` cannot accept more). -/
inductive WriteResult where
  | err (errno : Nat)
  | ret (count : Nat)
  deriving DecidableEq, Repr

/-- The readiness information and per-descriptor syscall results for one
iteration in which `select` returned a positive count. -/
structure ReadySets where
  outReady : Bool
  errReady : Bool
  outRead : ReadResult
  errRead : ReadResult
  inReady : Bool
  inWrite : WriteResult
  deriving DecidableEq, Repr

/-- Result of the `select` call of one iteration. -/
inductive SelectResult where
  | err (errno : Nat)
  | zero
  | ready (r : ReadySets)
  deriving DecidableEq, Repr

/-- What the OS presents to one iteration of the `while` loop: the value of the
`command_timedout` flag observed at the loop head (the flag is set
asynchronously by `timer_handler`), and the outcome of the `select` call. -/
structure IterInput where
  flag : Bool
  sel : SelectResult
  deriving DecidableEq, Repr

/-- The loop state of `rw_from_child`: whether the stdout/stderr pipe
descriptors are still open (`descriptor != -1`), and the stdin side
(`none` models `input.first == -1`, `some data` the remaining unwritten
input text). -/
structure RwState where
  outOpen : Bool
  errOpen : Bool
  inp : Option Chunk
  deriving DecidableEq, Repr

/-- How `rw_from_child` ends: a normal return because every descriptor is
closed (line 201), a normal return because a callback asked to stop
(line 247), the `timeout_exception` thrown after the loop (line 276) carrying
the child pid, or an `execution_exception` from an unrecoverable `select`/
`read` error ("failed to read child output.") or `write` error
("failed to write child input."). -/
inductive RwOutcome where
  | allClosed
  | earlyStop
  | timedOut (child : Nat)
  | readError
  | writeError
  deriving DecidableEq, Repr

/-- Chronological log of the loop's interactions with the stream callbacks:
`readEv` records the bytes successfully read from a pipe (`false` = stdout,
`true` = stderr), `cbEv` records a callback invocation and the chunk passed
to it. -/
inductive Event where
  | readEv (stream : Bool) (chunk : Chunk)
  | cbEv (stream : Bool) (chunk : Chunk)
  deriving DecidableEq, Repr

/-- Result of one loop iteration: continue with a new state, or leave the loop
with an outcome.  Both carry the events of the iteration. -/
inductive StepRes where
  | cont (s : RwState) (log : List Event)
  | done (o : RwOutcome) (log : List Event)
  deriving DecidableEq, Repr

/-- The body of the `for (auto& pipe : pipes)` loop for a single pipe
(lines 222-249): skip when closed or not ready; on a read error retry
(`EINTR`) or fail; on a zero count close the descriptor; otherwise shrink the
buffer to the count and invoke the callback, stopping everything when it
returns false.  Returns the new open flag, the events, and an outcome when the
whole call returns or throws here. -/
def processPipe (cb : Chunk → Bool) (stream : Bool) (isOpen ready : Bool)
    (res : ReadResult) : Bool × List Event × Option RwOutcome :=
  if isOpen && ready then
    match res with
    | .err e => if e = EINTR then (isOpen, [], none) else (isOpen, [], some .readError)
    | .ret bytes =>
      let chunk := bytes.take bufsize
      if chunk.isEmpty then (false, [], none)
      else if cb chunk then (isOpen, [.readEv stream chunk, .cbEv stream chunk], none)
      else (isOpen, [.readEv stream chunk, .cbEv stream chunk], some .earlyStop)
  else (isOpen, [], none)

/-- One iteration of the `while (!command_timedout)` loop of `rw_from_child`:
check the flag, return when every descriptor is closed (`max == -1`), run
`select`, service the stdout pipe, then the stderr pipe, then the stdin
write side. -/
def step (child : Nat) (cb0 cb1 : Chunk → Bool) (s : RwState) (i : IterInput) : StepRes :=
  if i.flag then .done (.timedOut child) []
  else if !s.outOpen && !s.errOpen && s.inp.isNone then .done .allClosed []
  else
    match i.sel with
    | .err e => if e = EINTR then .cont s [] else .done .readError []
    | .zero => .cont s []
    | .ready r =>
      match processPipe cb0 false s.outOpen r.outReady r.outRead with
      | (_, log0, some o) => .done o log0
      | (o0, log0, none) =>
        match processPipe cb1 true s.errOpen r.errReady r.errRead with
        | (_, log1, some o) => .done o (log0 ++ log1)
        | (o1, log1, none) =>
          match s.inp with
          | none => .cont ⟨o0, o1, none⟩ (log0 ++ log1)
          | some data =>
            if r.inReady then
              match r.inWrite with
              | .err e =>
                if e = EINTR then .cont ⟨o0, o1, some data⟩ (log0 ++ log1)
                else .done .writeError (log0 ++ log1)
              | .ret n =>
                let w := min n data.length
                if w = 0 then .cont ⟨o0, o1, none⟩ (log0 ++ log1)
                else .cont ⟨o0, o1, some (data.drop w)⟩ (log0 ++ log1)
            else .cont ⟨o0, o1, some data⟩ (log0 ++ log1)

/-- Run `rw_from_child` on a trace of per-iteration OS responses.  Returns
`none` when the trace is exhausted with the loop still running, otherwise the
outcome, together with the chronological event log. -/
def run (child : Nat) (cb0 cb1 : Chunk → Bool) : RwState → List IterInput →
    Option RwOutcome × List Event
  | _, [] => (none, [])
  | s, i :: rest =>
    match step child cb0 cb1 s i with
    | .done o log => (some o, log)
    | .cont s' log =>
      let r := run child cb0 cb1 s' rest
      (r.1, log ++ r.2)

/-- The event list carried by a step result. -/
def StepRes.log : StepRes → List Event
  | .cont _ l => l
  | .done _ l => l

/-- The chunks passed to the callback of one stream, in chronological order. -/
def cbChunks (st : Bool) (log : List Event) : List Chunk :=
  log.filterMap fun e =>
    match e with
    | .cbEv s ch => if s == st then some ch else none
    | _ => none

/-- The chunks read from one stream's pipe, in chronological order. -/
def readChunks (st : Bool) (log : List Event) : List Chunk :=
  log.filterMap fun e =>
    match e with
    | .readEv s ch => if s == st then some ch else none
    | _ => none

/-- A well-formed event log: every delivered chunk is non-empty and at most
`bufsize` bytes, and for each stream the delivered chunks are exactly the read
chunks, in the same order. -/
def GoodLog (log : List Event) : Prop :=
  (∀ st ch, Event.cbEv st ch ∈ log → ch ≠ [] ∧ ch.length ≤ bufsize) ∧
  (∀ st, cbChunks st log = readChunks st log)

/-! ## Reaper, child creation and the `execute` orchestrator
(`execution.cc` lines 279-330, 383-403 and 405-573) -/

/-- `static_cast<char>` of a non-negative machine value: two's-complement
narrowing to a signed 8-bit integer (`char` is signed on the reference x86
platforms). -/
def toSignedChar (v : Nat) : Int :=
  let m := v % 256
  if m < 128 then (m : Int) else (m : Int) - 256

/-- How the child terminated, as decoded from the `waitpid` status word:
`exited code` is `WIFEXITED` with `WEXITSTATUS = code` (the OS keeps only the
low 8 bits of the exit argument), `signaled sig` is `WIFSIGNALED` with
`WTERMSIG = sig`, `stopped raw` is neither macro true (kept for faithfulness;
`status` then retains the raw wait status), `waitFailed` is `waitpid`
returning `-1`. -/
inductive ChildTermination where
  | exited (code : Nat)
  | signaled (sig : Nat)
  | stopped (raw : Int)
  | waitFailed
  deriving DecidableEq, Repr

/-- State produced by the reaper lambda (`execution.cc` lines 481-500):
whether the process group was killed (`kill(-child, SIGKILL)`, which happens
exactly when `kill_child` is still true), and the `success`/`signaled`/
`status` variables after decoding.  The kill, when performed, precedes the
`waitpid` call. -/
structure ReapOutcome where
  killed : Bool
  success : Bool
  signaled : Bool
  status : Int
  deriving DecidableEq, Repr

/-- The reaper lambda: kill the process group when `killChild` is set, then
wait and decode.  `success`, `signaled` and `status` start as
`false`/`false`/`0` (lines 478-480). -/
def reap (killChild : Bool) (t : ChildTermination) : ReapOutcome :=
  match t with
  | .waitFailed => ⟨killChild, false, false, 0⟩
  | .exited code =>
    let st := toSignedChar code
    ⟨killChild, st == 0, false, st⟩
  | .signaled sig => ⟨killChild, false, true, toSignedChar sig⟩
  | .stopped raw => ⟨killChild, false, false, raw⟩

/-- The distinct failures raised as `execution_exception`. -/
inductive ExecFailure where
  | forkFailed
  | readFailed
  | writeFailed
  deriving DecidableEq, Repr

/-- What a call to `execute` does, as visible to the caller: return a
`result {success, output, error, status}`, or raise one of the exception
types (`child_exit_exception` and `child_signal_exception` carry the decoded
status plus the captured streams; `timeout_exception` carries the child pid;
`execution_exception` carries only a message). -/
inductive ExecOutcome where
  | result (success : Bool) (out err : Str) (status : Int)
  | childExitExc (status : Int) (out err : Str)
  | childSignalExc (status : Int) (out err : Str)
  | timeoutExc (child : Nat)
  | executionExc (what : ExecFailure)
  deriving DecidableEq, Repr

/-- Outcome of `create_child` plus the child branch `exec_child`
(lines 279-330 and 383-403): `failed` is `vfork() < 0` (the parent throws),
`execFailed errno` is a created child whose `exec_child` did not reach a
successful `execve` (the child then calls `_exit(errno == 0 ? EXIT_FAILURE :
errno)`), `running` is a successfully launched child. -/
inductive ForkResult where
  | failed
  | execFailed (errno : Nat)
  | running
  deriving DecidableEq, Repr

/-- The exit code of a child whose `exec_child` failed:
`_exit(errno == 0 ? EXIT_FAILURE : errno)`, truncated by the OS to 8 bits. -/
def exec_fail_code (e : Nat) : Nat := if e == 0 then 1 % 256 else e % 256

/-- The behaviour options of `execute` consulted by the modelled code paths. -/
structure Options where
  throwOnNonzeroExit : Bool
  throwOnSignal : Bool
  redirectStderrToStdout : Bool
  redirectStderrToNull : Bool
  mergeEnvironment : Bool
  trimOutput : Bool
  deriving DecidableEq, Repr

/-- The tail of `execute` after `process_streams` either returned or threw
(lines 548-572): an exception out of the loop leaves `kill_child` true, so the
scope-exit reaper kills the group and the exception propagates; a normal
return clears `kill_child`, invokes the reaper without killing, and then
returns the result or raises `child_exit_exception`/`child_signal_exception`
per the options.  `out`/`err` are the streams accumulated by
`process_streams`; the second component reports whether the group was
killed. -/
def execute_after_loop (opts : Options) (rw : RwOutcome) (t : ChildTermination)
    (out err : Str) : ExecOutcome × Bool :=
  match rw with
  | .timedOut c => (.timeoutExc c, (reap true t).killed)
  | .readError => (.executionExc .readFailed, (reap true t).killed)
  | .writeError => (.executionExc .writeFailed, (reap true t).killed)
  | .allClosed | .earlyStop =>
    let r := reap false t
    if !r.success && !r.signaled && r.status != 0 && opts.throwOnNonzeroExit then
      (.childExitExc r.status out err, r.killed)
    else if !r.success && r.signaled && opts.throwOnSignal then
      (.childSignalExc r.status out err, r.killed)
    else (.result r.success out err r.status, r.killed)

/-- The initial loop state handed to `rw_from_child` by `execute`: the stdout
read pipe is open; the stderr read pipe exists only when stderr is neither
redirected to stdout nor to `/dev/null` (lines 440-457, 535-538); the stdin
write side carries the input text only when input was supplied (lines 468-470,
540-543). -/
def initState (opts : Options) (hasInput : Bool) (inputBytes : Chunk) : RwState :=
  { outOpen := true
    errOpen := !(opts.redirectStderrToStdout || opts.redirectStderrToNull)
    inp := if hasInput then some inputBytes else none }

/-- `execute` (`execution.cc` lines 405-573).  `resolved` is the result of
`which` (empty string modelled as `none`); `fr` the fork/exec outcome; `trace`
the OS responses driving the multiplexing loop; `tRun` how a successfully
launched child terminated; `out`/`err` the streams accumulated by
`process_streams`.  The value is `none` when the trace ends with the loop
still running, otherwise `some (outcome, child created?, group killed?)`. -/
def execute (opts : Options) (resolved : Option Str) (child : Nat)
    (fr : ForkResult) (trace : List IterInput) (cb0 cb1 : Chunk → Bool)
    (hasInput : Bool) (inputBytes : Chunk) (tRun : ChildTermination)
    (out err : Str) : Option (ExecOutcome × Bool × Bool) :=
  match resolved with
  | none =>
    if opts.throwOnNonzeroExit then some (.childExitExc 127 [] [], false, false)
    else some (.result false [] [] 127, false, false)
  | some _ =>
    match fr with
    | .failed => some (.executionExc .forkFailed, false, false)
    | .execFailed e =>
      match (run child cb0 cb1 (initState opts hasInput inputBytes) trace).1 with
      | none => none
      | some rw =>
        let a := execute_after_loop opts rw (.exited (exec_fail_code e)) out err
        some (a.1, true, a.2)
    | .running =>
      match (run child cb0 cb1 (initState opts hasInput inputBytes) trace).1 with
      | none => none
      | some rw =>
        let a := execute_after_loop opts rw tRun out err
        some (a.1, true, a.2)

/-! ## Claim C5: unresolved executable short-circuits with status 127 -/

/-- C5: when `which` resolves nothing, `execute` creates no child and yields
status 127: a `success = false` result when `throw_on_nonzero_exit` is off, a
raised `child_exit_exception` carrying 127 when it is on. -/
theorem C5_not_found_yields_127 (opts : Options) (child : Nat) (fr : ForkResult)
    (trace : List IterInput) (cb0 cb1 : Chunk → Bool) (hasInput : Bool)
    (ib : Chunk) (t : ChildTermination) (out err : Str) :
    execute opts none child fr trace cb0 cb1 hasInput ib t out err =
      some (if opts.throwOnNonzeroExit then .childExitExc 127 [] []
            else .result false [] [] 127, false, false) := by
  cases h : opts.throwOnNonzeroExit <;> simp [execute, h]

/-! ## Claim C6: an expired timeout is always raised, carrying the child pid -/

/-- C6: whenever the multiplexing loop exits because the timeout flag was
observed set, `execute` raises `timeout_exception` carrying the child process
identifier (and kills the process group first); the timeout is never turned
into a returned result. -/
theorem C6_timeout_raised_with_child (opts : Options) (p : Str) (child : Nat)
    (trace : List IterInput) (cb0 cb1 : Chunk → Bool) (hasInput : Bool)
    (ib : Chunk) (t : ChildTermination) (out err : Str)
    (h : (run child cb0 cb1 (initState opts hasInput ib) trace).1 =
          some (.timedOut child)) :
    execute opts (some p) child .running trace cb0 cb1 hasInput ib t out err =
      some (.timeoutExc child, true, true) := by
  cases t <;> simp [execute, h, execute_after_loop, reap]

/-- C6 witness: a concrete trace on which the loop head observes the flag. -/
theorem C6_witness :
    execute ⟨false, false, false, false, false, false⟩ (some "p".toList) 9 .running
        [⟨true, .err 0⟩] (fun _ => true) (fun _ => true) false [] (.exited 0) [] [] =
      some (.timeoutExc 9, true, true) :=
  C6_timeout_raised_with_child ⟨false, false, false, false, false, false⟩ "p".toList 9
    [⟨true, .err 0⟩] (fun _ => true) (fun _ => true) false [] (.exited 0) [] [] (by decide)

/-! ## Claim C1: which loop exits kill the process group before reaping -/

/-- C1 counterexample: the stdout callback requests early stop, so
`rw_from_child` returns normally; `execute` then clears `kill_child` and reaps
without killing the process group (third component `false`), although the loop
did not exit by clean closure of all pipes. -/
theorem C1_counterexample :
    (run 42 (fun _ => false) (fun _ => true) ⟨true, false, none⟩
        [⟨false, .ready ⟨true, false, .ret [7], .ret [], false, .ret 0⟩⟩]).1 =
      some .earlyStop ∧
    execute ⟨false, false, true, false, false, false⟩ (some "p".toList) 42 .running
        [⟨false, .ready ⟨true, false, .ret [7], .ret [], false, .ret 0⟩⟩]
        (fun _ => false) (fun _ => true) false [] (.exited 0) [] [] =
      some (.result true [] [] 0, true, false) := by decide

/-- C1 (amended): the process group is forcibly killed before the termination
status is collected exactly when the multiplexing loop exited by exception
(timeout or unrecoverable I/O error); when it returns normally — clean closure
of all pipes or a caller callback requesting early stop — `kill_child` is
cleared and no kill happens. -/
theorem C1_kill_iff_loop_exception (opts : Options) (p : Str) (child : Nat)
    (trace : List IterInput) (cb0 cb1 : Chunk → Bool) (hasInput : Bool)
    (ib : Chunk) (t : ChildTermination) (out err : Str) (rw : RwOutcome)
    (h : (run child cb0 cb1 (initState opts hasInput ib) trace).1 = some rw) :
    execute opts (some p) child .running trace cb0 cb1 hasInput ib t out err =
      some ((execute_after_loop opts rw t out err).1, true,
            match rw with
            | .allClosed => false
            | .earlyStop => false
            | _ => true) := by
  cases rw <;> cases t <;>
    simp [execute, h, execute_after_loop, reap] <;>
    split <;> simp_all

/-- C1 witness: the amended theorem applied to a run that times out. -/
theorem C1_witness :
    execute ⟨false, false, false, false, false, false⟩ (some "p".toList) 5 .running
        [⟨true, .err 0⟩] (fun _ => true) (fun _ => true) false [] (.exited 0) [] [] =
      some ((execute_after_loop ⟨false, false, false, false, false, false⟩
              (.timedOut 5) (.exited 0) [] []).1, true, true) :=
  C1_kill_iff_loop_exception ⟨false, false, false, false, false, false⟩ "p".toList 5
    [⟨true, .err 0⟩] (fun _ => true) (fun _ => true) false [] (.exited 0) [] []
    (.timedOut 5) (by decide)

/-! ## Claim C2: launch failures -/

/-- C2 counterexample: `vfork` succeeds but `execve` fails with `errno = 2`
(`ENOENT`); the child `_exit`s with code 2, and with `throw_on_nonzero_exit`
off `execute` returns an ordinary `success = false` result with status 2 — no
launch failure is raised. -/
theorem C2_counterexample :
    execute ⟨false, false, true, false, false, false⟩ (some "p".toList) 7 (.execFailed 2)
        [⟨false, .ready ⟨true, false, .ret [], .ret [], false, .ret 0⟩⟩, ⟨false, .err 0⟩]
        (fun _ => true) (fun _ => true) false [] (.exited 0) [] [] =
      some (.result false [] [] 2, true, false) := by decide

/-- C2 (amended): only a failure of `vfork` itself raises an
`execution_exception`; when the child is created but image replacement fails
with `errno = e`, the child exits with code `e` and `execute` behaves exactly
as for a child that exited normally with code `e` (an ordinary non-zero exit:
returned, or raised as `child_exit_exception` only under
`throw_on_nonzero_exit`). -/
theorem C2_fork_raises_exec_fail_is_exit (opts : Options) (p : Str) (child : Nat)
    (trace : List IterInput) (cb0 cb1 : Chunk → Bool) (hasInput : Bool)
    (ib : Chunk) (t : ChildTermination) (out err : Str) (e : Nat)
    (h1 : e ≠ 0) (h2 : e < 256) :
    execute opts (some p) child .failed trace cb0 cb1 hasInput ib t out err =
      some (.executionExc .forkFailed, false, false) ∧
    execute opts (some p) child (.execFailed e) trace cb0 cb1 hasInput ib t out err =
      execute opts (some p) child .running trace cb0 cb1 hasInput ib (.exited e) out err := by
  refine ⟨rfl, ?_⟩
  have hc : exec_fail_code e = e := by
    simp [exec_fail_code, Nat.mod_eq_of_lt h2, h1]
  simp only [execute, hc]

/-- C2 witness: the amended theorem at `errno = 2` with an empty trace. -/
theorem C2_witness :
    execute ⟨true, false, false, false, false, false⟩ (some "q".toList) 3 .failed []
        (fun _ => true) (fun _ => true) false [] (.exited 0) [] [] =
      some (.executionExc .forkFailed, false, false) ∧
    execute ⟨true, false, false, false, false, false⟩ (some "q".toList) 3 (.execFailed 2) []
        (fun _ => true) (fun _ => true) false [] (.exited 0) [] [] =
      execute ⟨true, false, false, false, false, false⟩ (some "q".toList) 3 .running []
        (fun _ => true) (fun _ => true) false [] (.exited 2) [] [] :=
  C2_fork_raises_exec_fail_is_exit ⟨true, false, false, false, false, false⟩ "q".toList 3 []
    (fun _ => true) (fun _ => true) false [] (.exited 0) [] [] 2 (by decide) (by decide)

/-! ## Claim C4: result of a normal exit -/

/-- C4 counterexample: a child exiting normally with code 200 yields status
`-56` (the `static_cast<char>` narrowing of 200), not 200, so the returned
status does not equal the exit code for codes above 127. -/
theorem C4_counterexample :
    execute ⟨false, false, false, true, false, false⟩ (some "p".toList) 4 .running
        [⟨false, .ready ⟨true, false, .ret [], .ret [], false, .ret 0⟩⟩, ⟨false, .err 0⟩]
        (fun _ => true) (fun _ => true) false [] (.exited 200) [] [] =
      some (.result false [] [] (-56), true, false) ∧ ((-56 : Int) ≠ 200) := by decide

/-- C4 (amended): when the child exits normally with code `c` (as reported by
the OS, `c < 256`) and the loop saw all pipes close, the result status is the
signed 8-bit narrowing of `c` (equal to `c` exactly when `c < 128`), `success`
holds exactly when `c = 0`, and when `c` is non-zero and
`throw_on_nonzero_exit` is set a `child_exit_exception` carrying that narrowed
status and the captured streams is raised instead. -/
theorem C4_normal_exit_contract (opts : Options) (p : Str) (child : Nat)
    (trace : List IterInput) (cb0 cb1 : Chunk → Bool) (hasInput : Bool)
    (ib : Chunk) (out err : Str) (c : Nat) (hc : c < 256)
    (h : (run child cb0 cb1 (initState opts hasInput ib) trace).1 = some .allClosed) :
    execute opts (some p) child .running trace cb0 cb1 hasInput ib (.exited c) out err =
      some ((if opts.throwOnNonzeroExit && !(c == 0) then
               .childExitExc (toSignedChar c) out err
             else .result (c == 0) out err (toSignedChar c)), true, false) ∧
    (toSignedChar c = 0 ↔ c = 0) ∧ (c < 128 → toSignedChar c = c) := by
  have hiff : toSignedChar c = 0 ↔ c = 0 := by
    simp only [toSignedChar]
    rw [Nat.mod_eq_of_lt hc]
    split <;> omega
  have hchar : c < 128 → toSignedChar c = (c : Int) := by
    intro hlt
    simp only [toSignedChar]
    rw [Nat.mod_eq_of_lt hc]
    split <;> omega
  refine ⟨?_, hiff, hchar⟩
  have hbeq : (toSignedChar c == 0) = (c == 0) := by
    by_cases h0 : c = 0
    · subst h0; decide
    · have hne : toSignedChar c ≠ 0 := fun hh => h0 (hiff.mp hh)
      simp [hne, h0]
  simp only [execute, h]
  cases hop : opts.throwOnNonzeroExit <;> cases hc0 : (c == 0) <;>
    simp_all [execute_after_loop, reap, hbeq]

/-- C4 witness: the amended theorem for a child exiting with code 3. -/
theorem C4_witness :
    execute ⟨false, false, false, true, false, false⟩ (some "p".toList) 4 .running
        [⟨false, .ready ⟨true, false, .ret [], .ret [], false, .ret 0⟩⟩, ⟨false, .err 0⟩]
        (fun _ => true) (fun _ => true) false [] (.exited 3) [] [] =
      some ((if (⟨false, false, false, true, false, false⟩ : Options).throwOnNonzeroExit
                && !(3 == 0) then
               .childExitExc (toSignedChar 3) [] []
             else .result (3 == 0) [] [] (toSignedChar 3)), true, false) ∧
    (toSignedChar 3 = 0 ↔ 3 = 0) ∧ (3 < 128 → toSignedChar 3 = 3) :=
  C4_normal_exit_contract ⟨false, false, false, true, false, false⟩ "p".toList 4
    [⟨false, .ready ⟨true, false, .ret [], .ret [], false, .ret 0⟩⟩, ⟨false, .err 0⟩]
    (fun _ => true) (fun _ => true) false [] [] [] 3 (by decide) (by decide)

/-! ## Claim C7: decoding of the termination status -/

/-- C7: the reaper marks a normal exit and a termination by signal as distinct
outcomes (the `signaled` flag); a normal exit with code `c` yields the signed
8-bit narrowing of `c` — congruent to `c` modulo 256 and within an 8-bit
range — and a termination by signal `sig` (signal numbers are below 128)
yields exactly the signal number. -/
theorem C7_decode_exit_and_signal (k : Bool) (c sig : Nat) (hsig : sig < 128) :
    ((reap k (.exited c)).signaled = false ∧
     (reap k (.exited c)).status = toSignedChar c ∧
     (reap k (.exited c)).status % 256 = (c : Int) % 256 ∧
     (-128 : Int) ≤ (reap k (.exited c)).status ∧ (reap k (.exited c)).status < 128) ∧
    ((reap k (.signaled sig)).signaled = true ∧
     (reap k (.signaled sig)).status = (sig : Int)) := by
  constructor
  · refine ⟨rfl, rfl, ?_, ?_, ?_⟩ <;>
      · simp only [reap, toSignedChar]
        split <;> omega
  · refine ⟨rfl, ?_⟩
    simp only [reap, toSignedChar]
    rw [Nat.mod_eq_of_lt (by omega : sig < 256)]
    split <;> omega

/-- C7 witness: exit code 200 and signal 9. -/
theorem C7_witness :
    ((reap true (.exited 200)).signaled = false ∧
     (reap true (.exited 200)).status = toSignedChar 200 ∧
     (reap true (.exited 200)).status % 256 = (200 : Int) % 256 ∧
     (-128 : Int) ≤ (reap true (.exited 200)).status ∧
     (reap true (.exited 200)).status < 128) ∧
    ((reap true (.signaled 9)).signaled = true ∧
     (reap true (.signaled 9)).status = (9 : Int)) :=
  C7_decode_exit_and_signal true 200 9 (by decide)

/-! ## Claim C9: interrupted system calls are retried, never surfaced -/

/-- C9: when any descriptor is still in play, an `EINTR` from `select`, and an
iteration whose `read`s and `write` all come back `EINTR`, leave the loop state
unchanged, invoke no callback, raise nothing, and simply go round the loop
again. -/
theorem C9_eintr_retried (child : Nat) (cb0 cb1 : Chunk → Bool) (s : RwState)
    (h : ¬(s.outOpen = false ∧ s.errOpen = false ∧ s.inp = none)) :
    step child cb0 cb1 s ⟨false, .err EINTR⟩ = .cont s [] ∧
    step child cb0 cb1 s
        ⟨false, .ready ⟨true, true, .err EINTR, .err EINTR, true, .err EINTR⟩⟩ =
      .cont s [] := by
  obtain ⟨o, e, i⟩ := s
  cases o <;> cases e <;> cases i <;> simp_all [step, processPipe, EINTR]

/-- C9 witness: both pipes open, no input pending. -/
theorem C9_witness :
    step 1 (fun _ => true) (fun _ => true) ⟨true, true, none⟩ ⟨false, .err EINTR⟩ =
      .cont ⟨true, true, none⟩ [] ∧
    step 1 (fun _ => true) (fun _ => true) ⟨true, true, none⟩
        ⟨false, .ready ⟨true, true, .err EINTR, .err EINTR, true, .err EINTR⟩⟩ =
      .cont ⟨true, true, none⟩ [] :=
  C9_eintr_retried 1 (fun _ => true) (fun _ => true) ⟨true, true, none⟩ (by decide)

/-! ## Claim C10: callback chunks are non-empty, bounded, and in read order -/

theorem goodLog_nil : GoodLog [] := by
  refine ⟨?_, fun _ => rfl⟩
  intro st ch h
  simp at h

theorem cbChunks_append (st : Bool) (l1 l2 : List Event) :
    cbChunks st (l1 ++ l2) = cbChunks st l1 ++ cbChunks st l2 := by
  simp [cbChunks, List.filterMap_append]

theorem readChunks_append (st : Bool) (l1 l2 : List Event) :
    readChunks st (l1 ++ l2) = readChunks st l1 ++ readChunks st l2 := by
  simp [readChunks, List.filterMap_append]

theorem goodLog_append {l1 l2 : List Event} (h1 : GoodLog l1) (h2 : GoodLog l2) :
    GoodLog (l1 ++ l2) := by
  obtain ⟨a1, b1⟩ := h1
  obtain ⟨a2, b2⟩ := h2
  constructor
  · intro st ch hm
    rcases List.mem_append.mp hm with hm | hm
    · exact a1 st ch hm
    · exact a2 st ch hm
  · intro st
    rw [cbChunks_append, readChunks_append, b1 st, b2 st]

theorem goodLog_pair (st : Bool) (ch : Chunk) (h1 : ch ≠ []) (h2 : ch.length ≤ bufsize) :
    GoodLog [.readEv st ch, .cbEv st ch] := by
  constructor
  · intro st' ch' hm
    simp only [List.mem_cons, List.not_mem_nil, or_false, reduceCtorEq, false_or] at hm
    obtain ⟨rfl, rfl⟩ := Event.cbEv.inj hm
    exact ⟨h1, h2⟩
  · intro st'
    by_cases hst : st = st' <;> simp [cbChunks, readChunks, hst]

theorem processPipe_good (cb : Chunk → Bool) (st isOpen ready : Bool)
    (res : ReadResult) : GoodLog (processPipe cb st isOpen ready res).2.1 := by
  unfold processPipe
  split
  · cases res with
    | err e =>
      by_cases he : e = EINTR <;> simp [he] <;> exact goodLog_nil
    | ret bytes =>
      by_cases hemp : (bytes.take bufsize).isEmpty
      · simp [hemp]
        exact goodLog_nil
      · have hne : bytes.take bufsize ≠ [] := by
          simpa [List.isEmpty_iff] using hemp
        have hlen : (bytes.take bufsize).length ≤ bufsize := by
          simp
        cases hcb : cb (bytes.take bufsize) <;>
          simp [hemp, hcb] <;> exact goodLog_pair st _ hne hlen
  · exact goodLog_nil

theorem step_good (child : Nat) (cb0 cb1 : Chunk → Bool) (s : RwState)
    (i : IterInput) : GoodLog (step child cb0 cb1 s i).log := by
  have h0 := processPipe_good cb0 false s.outOpen
  have h1 := processPipe_good cb1 true s.errOpen
  unfold step
  split
  · exact goodLog_nil
  · split
    · exact goodLog_nil
    · cases i.sel with
      | err e =>
        by_cases he : e = EINTR <;> simp [he, StepRes.log] <;> exact goodLog_nil
      | zero => exact goodLog_nil
      | ready r =>
        have h0r := h0 r.outReady r.outRead
        have h1r := h1 r.errReady r.errRead
        rcases hp0 : processPipe cb0 false s.outOpen r.outReady r.outRead
          with ⟨o0, log0, oc0⟩
        rw [hp0] at h0r
        rcases hp1 : processPipe cb1 true s.errOpen r.errReady r.errRead
          with ⟨o1, log1, oc1⟩
        rw [hp1] at h1r
        simp only [hp0, hp1]
        cases oc0 with
        | some o => exact h0r
        | none =>
          cases oc1 with
          | some o => exact goodLog_append h0r h1r
          | none =>
            cases s.inp with
            | none => exact goodLog_append h0r h1r
            | some data =>
              cases r.inReady
              · exact goodLog_append h0r h1r
              · cases r.inWrite with
                | err e =>
                  by_cases he : e = EINTR <;> simp [he, StepRes.log] <;>
                    exact goodLog_append h0r h1r
                | ret n =>
                  by_cases hw : min n data.length = 0 <;> simp [hw, StepRes.log] <;>
                    exact goodLog_append h0r h1r

theorem run_good (child : Nat) (cb0 cb1 : Chunk → Bool) (trace : List IterInput) :
    ∀ s : RwState, GoodLog (run child cb0 cb1 s trace).2 := by
  induction trace with
  | nil => intro s; exact goodLog_nil
  | cons i rest ih =>
    intro s
    have hs := step_good child cb0 cb1 s i
    cases hstep : step child cb0 cb1 s i with
    | done o log =>
      rw [hstep] at hs
      simpa [run, hstep, StepRes.log] using hs
    | cont s' log =>
      rw [hstep] at hs
      simp only [StepRes.log] at hs
      simpa [run, hstep] using goodLog_append hs (ih s')

/-- C10: on every run of the multiplexing loop, each callback invocation
receives a non-empty chunk of at most 4096 bytes, and for each stream the
chunks delivered to its callback are exactly the chunks read from its pipe,
in the same order. -/
theorem C10_callback_chunks (child : Nat) (cb0 cb1 : Chunk → Bool) (s : RwState)
    (trace : List IterInput) :
    (∀ st ch, Event.cbEv st ch ∈ (run child cb0 cb1 s trace).2 →
        ch ≠ [] ∧ ch.length ≤ 4096) ∧
    (∀ st, cbChunks st (run child cb0 cb1 s trace).2 =
        readChunks st (run child cb0 cb1 s trace).2) :=
  run_good child cb0 cb1 trace s

/-- C10 witness: a concrete run delivering the chunk `[7]` on stdout. -/
theorem C10_witness : ([7] : Chunk) ≠ [] ∧ ([7] : Chunk).length ≤ 4096 :=
  (C10_callback_chunks 1 (fun _ => true) (fun _ => true) ⟨true, false, none⟩
      [⟨false, .ready ⟨true, false, .ret [7], .ret [], false, .ret 0⟩⟩]).1
    false [7] (by decide)

/-! ## List lemmas about `name=value` strings -/

/-- Splitting at a separator that occurs in neither left part is unambiguous. -/
theorem sep_inj_left {e : Char} :
    ∀ (a c b d : Str), e ∉ a → e ∉ c → a ++ e :: b = c ++ e :: d → a = c ∧ b = d := by
  intro a
  induction a with
  | nil =>
    intro c b d _ hc h
    cases c with
    | nil => simpa using h
    | cons f c2 =>
      simp only [List.nil_append, List.cons_append, List.cons.injEq] at h
      rcases h with ⟨rfl, -⟩
      exact absurd (List.mem_cons_self _ _) hc
  | cons x a2 ih =>
    intro c b d ha hc h
    cases c with
    | nil =>
      simp only [List.cons_append, List.nil_append, List.cons.injEq] at h
      rcases h with ⟨rfl, -⟩
      exact absurd (List.mem_cons_self _ _) ha
    | cons f c2 =>
      simp only [List.cons_append, List.cons.injEq] at h
      rcases h with ⟨rfl, h2⟩
      have ha2 : e ∉ a2 := fun hm => ha (List.mem_cons_of_mem _ hm)
      have hc2 : e ∉ c2 := fun hm => hc (List.mem_cons_of_mem _ hm)
      obtain ⟨rfl, rfl⟩ := ih c2 b d ha2 hc2 h2
      exact ⟨rfl, rfl⟩

/-- Splitting at a separator that occurs in neither part of the right-hand
side is unambiguous. -/
theorem sep_inj_right {e : Char} :
    ∀ (a c b d : Str), e ∉ c → e ∉ d → a ++ e :: b = c ++ e :: d → a = c ∧ b = d := by
  intro a
  induction a with
  | nil =>
    intro c b d hc _ h
    cases c with
    | nil => simpa using h
    | cons f c2 =>
      simp only [List.nil_append, List.cons_append, List.cons.injEq] at h
      rcases h with ⟨rfl, -⟩
      exact absurd (List.mem_cons_self _ _) hc
  | cons x a2 ih =>
    intro c b d hc hd h
    cases c with
    | nil =>
      simp only [List.cons_append, List.nil_append, List.cons.injEq] at h
      rcases h with ⟨-, h2⟩
      have : e ∈ d := h2 ▸ List.mem_append_right a2 (List.mem_cons_self _ _)
      exact absurd this hd
    | cons f c2 =>
      simp only [List.cons_append, List.cons.injEq] at h
      rcases h with ⟨rfl, h2⟩
      have hc2 : e ∉ c2 := fun hm => hc (List.mem_cons_of_mem _ hm)
      obtain ⟨rfl, rfl⟩ := ih c2 b d hc2 hd h2
      exact ⟨rfl, rfl⟩

/-- `name=` is a prefix of `w=rest` exactly when `name = w`, provided neither
name contains `=`. -/
theorem startsWith_key {k w rest : Str} (hk : ('=' : Char) ∉ k)
    (hw : ('=' : Char) ∉ w) :
    startsWith (w ++ '=' :: rest) (k ++ ['=']) = true ↔ k = w := by
  constructor
  · intro h
    obtain ⟨t, ht⟩ := List.isPrefixOf_iff_prefix.mp h
    rw [List.append_assoc, List.singleton_append] at ht
    exact (sep_inj_left k w t rest hk hw ht).1
  · rintro rfl
    exact List.isPrefixOf_iff_prefix.mpr ⟨rest, by simp⟩

/-- A rendered map entry equals `w=cv` exactly for the pair `(w, cv)`, provided
`w` and `cv` are free of `=`. -/
theorem render_eq_locale {kv : Str × Str} {w cv : Str} (hw : ('=' : Char) ∉ w)
    (hcv : ('=' : Char) ∉ cv) : render kv = w ++ '=' :: cv ↔ kv = (w, cv) := by
  constructor
  · intro h
    obtain ⟨h1, h2⟩ := sep_inj_right kv.1 w kv.2 cv hw hcv h
    exact Prod.ext h1 h2
  · rintro rfl
    rfl

/-- A single `w=cv` entry never matches a lookup for a different key `k`. -/
theorem find?_single_key_ne {k w cv : Str} (hk : ('=' : Char) ∉ k)
    (hw : ('=' : Char) ∉ w) (hne : k ≠ w) :
    List.find? (fun x => startsWith x (k ++ ['='])) [w ++ '=' :: cv] = none := by
  have hp : startsWith (w ++ '=' :: cv) (k ++ ['=']) = false := by
    cases hb : startsWith (w ++ '=' :: cv) (k ++ ['='])
    · rfl
    · exact absurd ((startsWith_key hk hw).mp hb) hne
  simp [List.find?_cons, hp]

/-- Looking up key `k` over the rendered entries of a map that contains
`(k, v)`, maps `k` only to `v`, and has no `=` inside its keys, finds the
entry `k=v`. -/
theorem find?_env {k v : Str} (hk : ('=' : Char) ∉ k) :
    ∀ l : List (Str × Str), (k, v) ∈ l →
      (∀ kv ∈ l, ('=' : Char) ∉ kv.1) →
      (∀ kv ∈ l, kv.1 = k → kv.2 = v) →
      (l.map render).find? (fun x => startsWith x (k ++ ['='])) = some (render (k, v)) := by
  intro l
  induction l with
  | nil => intro hmem _ _; simp at hmem
  | cons kv0 t ih =>
    intro hmem hno huniq
    obtain ⟨k0, v0⟩ := kv0
    by_cases hkk : k0 = k
    · subst hkk
      have hv : v0 = v := huniq (k0, v0) (List.mem_cons_self _ _) rfl
      subst hv
      have hpred : startsWith (render (k0, v0)) (k0 ++ ['=']) = true := by
        unfold render
        exact (startsWith_key hk hk).mpr rfl
      simp [List.find?_cons, hpred]
    · have hno0 : ('=' : Char) ∉ k0 := hno (k0, v0) (List.mem_cons_self _ _)
      have hpred : startsWith (render (k0, v0)) (k ++ ['=']) = false := by
        cases hb : startsWith (render (k0, v0)) (k ++ ['='])
        · rfl
        · have := (startsWith_key hk hno0).mp hb
          exact absurd this.symm hkk
      have hmem2 : (k, v) ∈ t := by
        rcases List.mem_cons.mp hmem with he | ht2
        · obtain ⟨h1, -⟩ := Prod.mk.inj he.symm
          exact absurd h1 hkk
        · exact ht2
      have hno2 : ∀ kv ∈ t, ('=' : Char) ∉ kv.1 :=
        fun kv hm => hno kv (List.mem_cons_of_mem _ hm)
      have huniq2 : ∀ kv ∈ t, kv.1 = k → kv.2 = v :=
        fun kv hm => huniq kv (List.mem_cons_of_mem _ hm)
      rw [List.map_cons, List.find?_cons_of_neg _ (by simp [hpred]),
        ih hmem2 hno2 huniq2]

/-- An entry copied by the merge phase never starts with `LC_ALL=` or
`LANG=`. -/
theorem mem_merged {v : Str} {merge : Bool} {penv : List Str}
    (h : v ∈ merged_environment merge penv) :
    startsWith v "LC_ALL=".toList = false ∧ startsWith v "LANG=".toList = false := by
  unfold merged_environment at h
  cases merge with
  | false => simp at h
  | true =>
    have := (List.mem_filter.mp h).2
    constructor
    · cases hb : startsWith v "LC_ALL=".toList
      · rfl
      · rw [hb] at this; simp at this
    · cases hb : startsWith v "LANG=".toList
      · rfl
      · rw [hb] at this; simp at this

/-! ## Claim C3: caller override of an inherited variable -/

/-- C3 counterexample: with merging on, the parent entry `FOO=parent` and a
caller override `FOO=caller`, the constructed block keeps both entries with
the parent's first; a child runtime using POSIX first-match `getenv` therefore
observes the parent's value, not the caller's. -/
theorem C3_counterexample :
    getenv_first
        (create_environment (some [("FOO".toList, "caller".toList)]) true
          ["FOO=parent".toList])
        "FOO".toList = some "parent".toList ∧
    "parent".toList ≠ "caller".toList := by decide

/-- C3 (amended): the caller's entries are appended after the inherited ones
and the inherited duplicate is not removed, so the caller's value is the one
observed under last-match lookup: for any caller map containing `(k, v)`
(keys unique and free of `=`), the last matching entry of the constructed
block for `k` carries the caller's value `v`, for every merge flag and parent
environment. -/
theorem C3_caller_wins_last_match (env : List (Str × Str)) (merge : Bool)
    (penv : List Str) (k v : Str) (hmem : (k, v) ∈ env)
    (hno : ∀ kv ∈ env, ('=' : Char) ∉ kv.1)
    (huniq : ∀ kv ∈ env, kv.1 = k → kv.2 = v) :
    getenv_last (create_environment (some env) merge penv) k = some v := by
  have hk : ('=' : Char) ∉ k := hno (k, v) hmem
  have hkey : hasKey env k = true :=
    List.any_eq_true.mpr ⟨(k, v), hmem, by simp⟩
  have hfind : ((create_environment (some env) merge penv).reverse).find?
      (fun x => startsWith x (k ++ ['='])) = some (render (k, v)) := by
    unfold create_environment
    simp only [List.reverse_append, List.find?_append]
    have henv : (given_environment (some env)).reverse.find?
        (fun x => startsWith x (k ++ ['='])) = some (render (k, v)) := by
      unfold given_environment
      rw [← List.map_reverse]
      refine find?_env hk env.reverse (List.mem_reverse.mpr hmem) ?_ ?_
      · exact fun kv hm => hno kv (List.mem_reverse.mp hm)
      · exact fun kv hm => huniq kv (List.mem_reverse.mp hm)
    have hlang : (lang_default (some env)).reverse.find?
        (fun x => startsWith x (k ++ ['='])) = none := by
      have hred : lang_default (some env) =
          if hasKey env "LANG".toList then [] else ["LANG=C".toList] := rfl
      rw [hred]
      by_cases hl : hasKey env "LANG".toList
      · rw [if_pos hl]
        rfl
      · have hkne : k ≠ "LANG".toList := by
          rintro rfl
          exact hl hkey
        have hsplit : "LANG=C".toList = "LANG".toList ++ '=' :: "C".toList := by decide
        rw [if_neg hl, List.reverse_singleton, hsplit]
        exact find?_single_key_ne hk (by decide) hkne
    have hlc : (lc_default (some env)).reverse.find?
        (fun x => startsWith x (k ++ ['='])) = none := by
      have hred : lc_default (some env) =
          if hasKey env "LC_ALL".toList then [] else ["LC_ALL=C".toList] := rfl
      rw [hred]
      by_cases hl : hasKey env "LC_ALL".toList
      · rw [if_pos hl]
        rfl
      · have hkne : k ≠ "LC_ALL".toList := by
          rintro rfl
          exact hl hkey
        have hsplit : "LC_ALL=C".toList = "LC_ALL".toList ++ '=' :: "C".toList := by decide
        rw [if_neg hl, List.reverse_singleton, hsplit]
        exact find?_single_key_ne hk (by decide) hkne
    rw [hlang, hlc, henv]
    rfl
  unfold getenv_last getenv_first
  rw [hfind]
  have hdrop : (render (k, v)).drop (k.length + 1) = v := by
    have h2 : render (k, v) = (k ++ ['=']) ++ v := by
      unfold render
      rw [List.append_assoc, List.singleton_append]
    rw [h2, List.drop_left' (by simp)]
  show some ((render (k, v)).drop (k.length + 1)) = some v
  rw [hdrop]

/-- C3 witness: the amended theorem on the counterexample's inputs, showing
the caller's value is the last match. -/
theorem C3_witness :
    getenv_last
        (create_environment (some [("FOO".toList, "caller".toList)]) true
          ["FOO=parent".toList])
        "FOO".toList = some "caller".toList :=
  C3_caller_wins_last_match [("FOO".toList, "caller".toList)] true
    ["FOO=parent".toList] "FOO".toList "caller".toList (by decide) (by decide)
    (by decide)

/-! ## Claim C8: locale variables in the constructed block -/

theorem mem_lc_default {v : Str} (eo : Option (List (Str × Str)))
    (hm : v ∈ lc_default eo) : v = "LC_ALL=C".toList := by
  cases eo with
  | none =>
    have hred : lc_default none = ["LC_ALL=C".toList] := rfl
    rw [hred] at hm
    simpa using hm
  | some env =>
    have hred : lc_default (some env) =
        if hasKey env "LC_ALL".toList then [] else ["LC_ALL=C".toList] := rfl
    rw [hred] at hm
    by_cases hl : hasKey env "LC_ALL".toList
    · rw [if_pos hl] at hm
      simp at hm
    · rw [if_neg hl] at hm
      simpa using hm

theorem mem_lang_default {v : Str} (eo : Option (List (Str × Str)))
    (hm : v ∈ lang_default eo) : v = "LANG=C".toList := by
  cases eo with
  | none =>
    have hred : lang_default none = ["LANG=C".toList] := rfl
    rw [hred] at hm
    simpa using hm
  | some env =>
    have hred : lang_default (some env) =
        if hasKey env "LANG".toList then [] else ["LANG=C".toList] := rfl
    rw [hred] at hm
    by_cases hl : hasKey env "LANG".toList
    · rw [if_pos hl] at hm
      simp at hm
    · rw [if_neg hl] at hm
      simpa using hm

theorem lc_default_of_no_key (eo : Option (List (Str × Str)))
    (h : hasKey (eo.getD []) "LC_ALL".toList = false) :
    lc_default eo = ["LC_ALL=C".toList] := by
  cases eo with
  | none => rfl
  | some env =>
    have hred : lc_default (some env) =
        if hasKey env "LC_ALL".toList then [] else ["LC_ALL=C".toList] := rfl
    rw [hred, if_neg (by simp_all)]

theorem lang_default_of_no_key (eo : Option (List (Str × Str)))
    (h : hasKey (eo.getD []) "LANG".toList = false) :
    lang_default eo = ["LANG=C".toList] := by
  cases eo with
  | none => rfl
  | some env =>
    have hred : lang_default (some env) =
        if hasKey env "LANG".toList then [] else ["LANG=C".toList] := rfl
    rw [hred, if_neg (by simp_all)]

/-- C8 counterexample: when the caller's map sends `LC_ALL` to `C`, the block
contains the entry `LC_ALL=C` (rendered from the caller's pair) even though
the map has an `LC_ALL` key, refuting the claimed "exactly when the caller's
mapping has no LC_ALL key". -/
theorem C8_counterexample :
    "LC_ALL=C".toList ∈
        create_environment (some [("LC_ALL".toList, "C".toList)]) false [] ∧
    hasKey [("LC_ALL".toList, "C".toList)] "LC_ALL".toList = true := by decide

/-- C8 (amended): every entry of the block that begins with `LC_ALL=` or
`LANG=` is the appended default `LC_ALL=C`/`LANG=C` or renders one of the
caller's pairs — none is copied from the parent environment; and the block
contains `LC_ALL=C` (respectively `LANG=C`) exactly when the caller's mapping
has no `LC_ALL` (resp. `LANG`) key or itself maps it to `C`. -/
theorem C8_locale_handling (envOpt : Option (List (Str × Str))) (merge : Bool)
    (penv : List Str) :
    (∀ v ∈ create_environment envOpt merge penv,
        (startsWith v "LC_ALL=".toList || startsWith v "LANG=".toList) = true →
        v = "LC_ALL=C".toList ∨ v = "LANG=C".toList ∨
          ∃ kv ∈ envOpt.getD [], render kv = v) ∧
    ("LC_ALL=C".toList ∈ create_environment envOpt merge penv ↔
      hasKey (envOpt.getD []) "LC_ALL".toList = false ∨
        ("LC_ALL".toList, "C".toList) ∈ envOpt.getD []) ∧
    ("LANG=C".toList ∈ create_environment envOpt merge penv ↔
      hasKey (envOpt.getD []) "LANG".toList = false ∨
        ("LANG".toList, "C".toList) ∈ envOpt.getD []) := by
  have hmem_iff : ∀ v : Str, v ∈ create_environment envOpt merge penv ↔
      v ∈ merged_environment merge penv ∨ v ∈ given_environment envOpt ∨
      v ∈ lc_default envOpt ∨ v ∈ lang_default envOpt := by
    intro v
    simp [create_environment, List.mem_append, or_assoc]
  have hgiven_iff : ∀ v : Str, v ∈ given_environment envOpt ↔
      ∃ kv ∈ envOpt.getD [], render kv = v := by
    intro v
    cases envOpt with
    | none => simp [given_environment]
    | some env =>
      have hred : given_environment (some env) = env.map render := rfl
      rw [hred]
      simp [List.mem_map]
  refine ⟨?_, ?_, ?_⟩
  · intro v hv hpre
    rcases (hmem_iff v).mp hv with hm | hm | hm | hm
    · obtain ⟨h1, h2⟩ := mem_merged hm
      rw [h1, h2] at hpre
      simp at hpre
    · exact Or.inr (Or.inr ((hgiven_iff v).mp hm))
    · exact Or.inl (mem_lc_default envOpt hm)
    · exact Or.inr (Or.inl (mem_lang_default envOpt hm))
  · constructor
    · intro hv
      rcases (hmem_iff _).mp hv with hm | hm | hm | hm
      · obtain ⟨h1, -⟩ := mem_merged hm
        exact absurd h1 (by decide)
      · obtain ⟨kv, hkv, heq⟩ := (hgiven_iff _).mp hm
        have hsplit : "LC_ALL=C".toList = "LC_ALL".toList ++ '=' :: "C".toList := by
          decide
        have hkv2 : kv = ("LC_ALL".toList, "C".toList) :=
          (render_eq_locale (by decide) (by decide)).mp (heq.trans hsplit)
        exact Or.inr (hkv2 ▸ hkv)
      · cases eo : envOpt with
        | none => exact Or.inl rfl
        | some env =>
          rw [eo] at hm
          have hred : lc_default (some env) =
              if hasKey env "LC_ALL".toList then [] else ["LC_ALL=C".toList] := rfl
          rw [hred] at hm
          by_cases hl : hasKey env "LC_ALL".toList
          · rw [if_pos hl] at hm
            simp at hm
          · exact Or.inl (by simpa using Bool.eq_false_iff.mpr hl)
      · have := mem_lang_default envOpt hm
        exact absurd this (by decide)
    · intro h
      rcases h with h | h
      · have hm : "LC_ALL=C".toList ∈ lc_default envOpt := by
          rw [lc_default_of_no_key envOpt h]
          exact List.mem_singleton.mpr rfl
        exact (hmem_iff _).mpr (Or.inr (Or.inr (Or.inl hm)))
      · have hm : "LC_ALL=C".toList ∈ given_environment envOpt :=
          (hgiven_iff _).mpr ⟨("LC_ALL".toList, "C".toList), h, by decide⟩
        exact (hmem_iff _).mpr (Or.inr (Or.inl hm))
  · constructor
    · intro hv
      rcases (hmem_iff _).mp hv with hm | hm | hm | hm
      · obtain ⟨-, h2⟩ := mem_merged hm
        exact absurd h2 (by decide)
      · obtain ⟨kv, hkv, heq⟩ := (hgiven_iff _).mp hm
        have hsplit : "LANG=C".toList = "LANG".toList ++ '=' :: "C".toList := by
          decide
        have hkv2 : kv = ("LANG".toList, "C".toList) :=
          (render_eq_locale (by decide) (by decide)).mp (heq.trans hsplit)
        exact Or.inr (hkv2 ▸ hkv)
      · have := mem_lc_default envOpt hm
        exact absurd this (by decide)
      · cases eo : envOpt with
        | none => exact Or.inl rfl
        | some env =>
          rw [eo] at hm
          have hred : lang_default (some env) =
              if hasKey env "LANG".toList then [] else ["LANG=C".toList] := rfl
          rw [hred] at hm
          by_cases hl : hasKey env "LANG".toList
          · rw [if_pos hl] at hm
            simp at hm
          · exact Or.inl (by simpa using Bool.eq_false_iff.mpr hl)
    · intro h
      rcases h with h | h
      · have hm : "LANG=C".toList ∈ lang_default envOpt := by
          rw [lang_default_of_no_key envOpt h]
          exact List.mem_singleton.mpr rfl
        exact (hmem_iff _).mpr (Or.inr (Or.inr (Or.inr hm)))
      · have hm : "LANG=C".toList ∈ given_environment envOpt :=
          (hgiven_iff _).mpr ⟨("LANG".toList, "C".toList), h, by decide⟩
        exact (hmem_iff _).mpr (Or.inr (Or.inl hm))

/-- C8 witness: the amended characterisation applied to the caller map
`{LC_ALL ↦ C}` with merging on. -/
theorem C8_witness :
    "LC_ALL=C".toList ∈
      create_environment (some [("LC_ALL".toList, "C".toList)]) true
        ["LC_ALL=parent".toList] :=
  (C8_locale_handling (some [("LC_ALL".toList, "C".toList)]) true
      ["LC_ALL=parent".toList]).2.1.mpr (Or.inr (by decide))

end Leatherman
